import Mathlib

/-!
Verification of the send-mails-recruiters scripts.

The repository holds two Python source files:
  * send_recruiters.py              (referred to below as v1)
  * send_recruiters_2.py, which itself contains two near-identical scripts:
      - the drive-resume variant    (referred to below as v2)
      - the drive-resume-dedup variant (referred to below as v2d)

Strings are embedded as lists of characters (`Str`); every Python string
operation used by the scripts is modelled by an executable Lean function
with the same semantics on the inputs the scripts handle.
-/

abbrev Str := List Char

/-- Model of Python `str.strip()`: drop leading and trailing whitespace. -/
def strip (s : Str) : Str :=
  ((s.dropWhile Char.isWhitespace).reverse.dropWhile Char.isWhitespace).reverse

/-- Model of Python `str.lower()` on ASCII text. -/
def lowerStr (s : Str) : Str := s.map Char.toLower

/-- Model of Python `str.replace(a, b)` for a single-character pattern `a`
(the scripts only replace single characters). -/
def replaceChar (a b : Char) (s : Str) : Str :=
  s.map (fun c => if c == a then b else c)

/-- `beginsWith p s` is true when `p` is an initial segment of `s`. -/
def beginsWith : Str → Str → Bool
  | [], _ => true
  | _ :: _, [] => false
  | p :: ps, c :: cs => p == c && beginsWith ps cs

/-- Model of Python `sep in s` (substring containment). -/
def containsSub (sep : Str) : Str → Bool
  | [] => sep.isEmpty
  | c :: rest => beginsWith sep (c :: rest) || containsSub sep rest

/-- The text of `s` strictly before the first occurrence of `sep`
(`s` itself when `sep` does not occur).  For a non-empty `sep` this is
the first element of Python `s.split(sep)`. -/
def takeUntilSub (sep : Str) : Str → Str
  | [] => []
  | c :: rest => if beginsWith sep (c :: rest) then [] else c :: takeUntilSub sep rest

/-- The text of `s` strictly after the first occurrence of `sep`
(empty when `sep` does not occur). -/
def afterFirstSub (sep : Str) : Str → Str
  | [] => []
  | c :: rest =>
    if beginsWith sep (c :: rest) then List.drop sep.length (c :: rest)
    else afterFirstSub sep rest

/-- Fuelled worker for `splitOnSub`; scans left to right and cuts at every
(non-overlapping, leftmost) occurrence of `sep`, exactly like Python
`str.split` with a non-empty separator.  The fuel is only a termination
device; `splitOnSub` supplies enough for the scan to complete. -/
def splitGo (sep : Str) : Nat → Str → List Str
  | 0, s => [s]
  | fuel + 1, s =>
    match s with
    | [] => [[]]
    | c :: rest =>
      if beginsWith sep (c :: rest) then
        [] :: splitGo sep fuel (List.drop sep.length (c :: rest))
      else
        match splitGo sep fuel rest with
        | [] => [[c]]
        | h :: t => (c :: h) :: t

/-- Model of Python `s.split(sep)` for a non-empty separator. -/
def splitOnSub (sep s : Str) : List Str := splitGo sep (s.length + 1) s

/-- Worker for `pyTitle`; the boolean records whether the previous character
was alphabetic (Python `str.title` word state). -/
def pyTitleGo : Bool → Str → Str
  | _, [] => []
  | prevAlpha, c :: rest =>
    if c.isAlpha then
      (if prevAlpha then c.toLower else c.toUpper) :: pyTitleGo true rest
    else c :: pyTitleGo false rest

/-- Model of Python `str.title()` on ASCII text: the first letter of every
maximal run of letters is uppercased, the rest are lowercased. -/
def pyTitle (s : Str) : Str := pyTitleGo false s

/-- Model of Python `str.capitalize()` on ASCII text. -/
def pyCapitalize : Str → Str
  | [] => []
  | c :: rest => c.toUpper :: rest.map Char.toLower

/-! ## Contacts and the three `load_recruiters` variants -/

structure Contact where
  name : Str
  email : Str
deriving DecidableEq, Repr

/-- v1 header test: `first = [c.strip().lower() for c in rows[0]]` and then
`"email" in first or "name" in first`. -/
def headerCell_v1 (row : List Str) : Bool :=
  let first := row.map (fun c => lowerStr (strip c))
  first.contains "email".data || first.contains "name".data

/-- v1 fallback display name:
`email.split("@")[0].replace(".", " ").replace("_", " ").title()`. -/
def fallbackName_v1 (email : Str) : Str :=
  pyTitle (replaceChar '_' ' ' (replaceChar '.' ' ' (takeUntilSub "@".data email)))

/-- Row loop of v1 `load_recruiters`: skip rows with fewer than two cells,
strip the first two cells, skip empty emails, backfill empty names. -/
def loadRows_v1 : List (List Str) → List Contact
  | [] => []
  | r :: rs =>
    match r with
    | a :: b :: _ =>
      let name := strip a
      let email := strip b
      if email = [] then loadRows_v1 rs
      else { name := if name = [] then fallbackName_v1 email else name,
             email := email } :: loadRows_v1 rs
    | _ => loadRows_v1 rs

/-- v1 `load_recruiters` (send_recruiters.py, lines 65-90), modelled from the
list of parsed rows onward (the `csv.reader` itself is library code). -/
def load_recruiters (rows : List (List Str)) : List Contact :=
  match rows with
  | [] => []
  | first :: rest =>
    loadRows_v1 (if headerCell_v1 first then rest else first :: rest)

/-- v2 header test: `"email" in [c.lower() for c in rows[0]]` — cells are
lowercased but not stripped, and only "email" is checked. -/
def headerCheck_v2 (row : List Str) : Bool :=
  (row.map lowerStr).contains "email".data

/-- v2 fallback display name:
`email.split("@")[0].split(".")[0].capitalize()`. -/
def fallbackName_v2 (email : Str) : Str :=
  pyCapitalize (takeUntilSub ".".data (takeUntilSub "@".data email))

/-- Row loop of v2 `load_recruiters`: skip rows with fewer than two cells,
strip the first two cells, backfill empty names; empty emails are kept. -/
def loadRows_v2 : List (List Str) → List Contact
  | [] => []
  | r :: rs =>
    match r with
    | a :: b :: _ =>
      let name := strip a
      let email := strip b
      { name := if name = [] then fallbackName_v2 email else name,
        email := email } :: loadRows_v2 rs
    | _ => loadRows_v2 rs

/-- v2 `load_recruiters` (send_recruiters_2.py, lines 94-111). -/
def load_recruiters_v2 (rows : List (List Str)) : List Contact :=
  match rows with
  | [] => []
  | first :: rest =>
    loadRows_v2 (if headerCheck_v2 first then rest else first :: rest)

/-- Row loop of v2d `load_recruiters`: like v2 but the email is additionally
lowercased (`row[1].strip().lower()`, line 285). -/
def loadRows_v2d : List (List Str) → List Contact
  | [] => []
  | r :: rs =>
    match r with
    | a :: b :: _ =>
      let name := strip a
      let email := lowerStr (strip b)
      { name := if name = [] then fallbackName_v2 email else name,
        email := email } :: loadRows_v2d rs
    | _ => loadRows_v2d rs

/-- v2d `load_recruiters` (send_recruiters_2.py, lines 272-289). -/
def load_recruiters_v2d (rows : List (List Str)) : List Contact :=
  match rows with
  | [] => []
  | first :: rest =>
    loadRows_v2d (if headerCheck_v2 first then rest else first :: rest)

/-- Modelled from the spec: a header row is one where "some cell of it,
trimmed and lowercased, equals name or email" (the vocabulary of claim C4). -/
def claimHeaderRow (r : List Str) : Bool :=
  r.any (fun c => lowerStr (strip c) == "name".data || lowerStr (strip c) == "email".data)

/-- Modelled from the spec: a valid row has at least two cells and a
non-empty trimmed second cell (the vocabulary of claim C4). -/
def claimValidRow (r : List Str) : Bool :=
  match r with
  | _ :: b :: _ => !(strip b).isEmpty
  | _ => false

/-- The contact a valid row denotes: trimmed first cell as name (with the
fallback when empty), trimmed second cell as email. -/
def contactOfRow (r : List Str) : Contact :=
  match r with
  | a :: b :: _ =>
    { name := if strip a = [] then fallbackName_v1 (strip b) else strip a,
      email := strip b }
  | _ => { name := [], email := [] }

/-- Header vocabulary for the v2 loader: some cell, lowercased but not
trimmed, equals "email" (the only test the v2 header check performs). -/
def claimHeaderRow_v2 (r : List Str) : Bool :=
  r.any (fun c => lowerStr c == "email".data)

/-- A row with at least two cells — the only rows the v2 row loop keeps
(it never inspects whether the second cell is empty). -/
def hasTwoCells (r : List Str) : Bool :=
  match r with
  | _ :: _ :: _ => true
  | _ => false

/-- The contact a two-cell row denotes under the v2 row loop: trimmed first
cell as name (with the v2 fallback when empty), trimmed second cell as
email — even when that email is empty. -/
def contactOfRow_v2 (r : List Str) : Contact :=
  match r with
  | a :: b :: _ =>
    { name := if strip a = [] then fallbackName_v2 (strip b) else strip a,
      email := strip b }
  | _ => { name := [], email := [] }

/-! ## Deduplication (v2d `main`, lines 304-314) -/

/-- The dedup loop of v2d `main`: `seen` models the `seen_emails` set (as the
list of emails added so far); a contact whose email is already in `seen` is
skipped, otherwise it is kept and its email added.  Membership is plain
string equality, exactly like Python set membership. -/
def dedupGo (seen : List Str) : List Contact → List Contact
  | [] => []
  | c :: rest =>
    if seen.contains c.email then dedupGo seen rest
    else c :: dedupGo (c.email :: seen) rest

/-- The deduplicated contact list (`unique_recruiters`). -/
def dedup (cs : List Contact) : List Contact := dedupGo [] cs

/-- The reported duplicate count:
`len(recruiters) - len(unique_recruiters)` (line 314). -/
def dupCount (cs : List Contact) : Nat := cs.length - (dedup cs).length

/-- Modelled from the spec: "keeps the first occurrence of each distinct
email, discards later duplicates" — keep the head, then recursively keep
first occurrences among the later contacts whose email differs. -/
def firstOcc : List Contact → List Contact
  | [] => []
  | c :: rest => c :: firstOcc (rest.filter (fun d => !(d.email == c.email)))
termination_by cs => cs.length
decreasing_by
  simpa using Nat.lt_succ_of_le (List.length_filter_le _ _)

/-! ## Drive-link resource-identifier extraction
(`download_from_drive`, send_recruiters_2.py lines 54-60 and 235-240) -/

inductive DriveError where
  | invalidLinkFormat
deriving DecidableEq, Repr

/-- The file-id extraction of `download_from_drive`:
`drive_link.split("id=")[1].split("&")[0]` when the link contains `id=`,
else `drive_link.split("/d/")[1].split("/")[0]` when it contains `/d/`,
else `ValueError("Invalid Google Drive link format")`.
When the guard holds, the split has at least two pieces, so the Python
index `[1]` never fails; the `getD []` defaults are unreachable. -/
def extract_file_id (link : Str) : Except DriveError Str :=
  if containsSub "id=".data link then
    let t := ((splitOnSub "id=".data link).get? 1).getD []
    Except.ok (((splitOnSub "&".data t).get? 0).getD [])
  else if containsSub "/d/".data link then
    let t := ((splitOnSub "/d/".data link).get? 1).getD []
    Except.ok (((splitOnSub "/".data t).get? 0).getD [])
  else Except.error DriveError.invalidLinkFormat

/-! ## Message building -/

/-- An attachment: on-disk filename (`path.name`) and file bytes. -/
structure FileRef where
  name : Str
  content : Str
deriving DecidableEq, Repr

/-- A MIME part of the outbound message.  A binary part records, in order,
the filenames named by its `Content-Disposition` headers. -/
inductive MimePart where
  | text (body : Str)
  | binary (payload : Str) (dispositions : List Str)
deriving DecidableEq, Repr

structure EmailMsg where
  fromH : Str
  toH : Str
  subjectH : Str
  parts : List MimePart
deriving DecidableEq, Repr

/-- v1 `attach_file` (send_recruiters.py, lines 92-96): one binary part with
one `Content-Disposition` naming `path.name`, attached once. -/
def attach_file (msg : EmailMsg) (f : FileRef) : EmailMsg :=
  { msg with parts := msg.parts ++ [MimePart.binary f.content [f.name]] }

/-- v1 `build_message` (send_recruiters.py, lines 98-106). -/
def build_message (senderName senderEmail toEmail subject body : Str)
    (attachments : List FileRef) : EmailMsg :=
  attachments.foldl attach_file
    { fromH := senderName ++ " <".data ++ senderEmail ++ ">".data,
      toH := toEmail, subjectH := subject,
      parts := [MimePart.text body] }

def customName : Str := "Supriya G.pdf".data

/-- v2 `attach_file` (send_recruiters_2.py, lines 73-83): the same part
object is given a `Content-Disposition` for `path.name`, attached, given a
second `Content-Disposition` for `"Supriya G.pdf"`, and attached again.
Because both payload entries alias one object, the rendered message holds
two copies of the part, each bearing both disposition headers. -/
def attach_file_v2 (msg : EmailMsg) (f : FileRef) : EmailMsg :=
  let part := MimePart.binary f.content [f.name, customName]
  { msg with parts := msg.parts ++ [part, part] }

/-- Message construction of v2 `send_email` (send_recruiters_2.py, lines
85-92): headers, one text part, then `attach_file` on the single resume. -/
def send_email_msg_v2 (senderName senderEmail recipient subject body : Str)
    (att : FileRef) : EmailMsg :=
  attach_file_v2
    { fromH := senderName ++ " <".data ++ senderEmail ++ ">".data,
      toH := recipient, subjectH := subject,
      parts := [MimePart.text body] }
    att

/-! ## Delivery engine (`send_via_gmail`, send_recruiters.py lines 108-139) -/

inductive Outcome where
  | sent
  | failedAfterRetries
deriving DecidableEq, Repr

/-- One message handed to the engine: recipient, subject, and the transport
behaviour — `failsAt k` is true when the send attempt made with the Python
`attempt` counter equal to `k` raises `smtplib.SMTPException`. -/
structure MsgSpec where
  recipient : Str
  subject : Str
  failsAt : Nat → Bool

/-- The per-recipient `while attempt <= retries` loop (lines 120-133),
returning the outcome, the number of send attempts made, and the list of
backoff sleeps (`2 ** attempt` seconds) in order.  `attempt` is the Python
counter (0 before the first try); the fuel is `retries + 1 - attempt`, the
maximal number of remaining iterations. -/
def sendLoopGo (f : Nat → Bool) (retries : Nat) : Nat → Nat → Outcome × Nat × List Nat
  | _, 0 => (Outcome.failedAfterRetries, 0, [])
  | attempt, fuel + 1 =>
    if attempt ≤ retries then
      if f attempt then
        if retries < attempt + 1 then (Outcome.failedAfterRetries, 1, [])
        else
          let r := sendLoopGo f retries (attempt + 1) fuel
          (r.1, r.2.1 + 1, 2 ^ (attempt + 1) :: r.2.2)
      else (Outcome.sent, 1, [])
    else (Outcome.failedAfterRetries, 0, [])

/-- The whole retry loop for one recipient. -/
def sendLoop (retries : Nat) (f : Nat → Bool) : Outcome × Nat × List Nat :=
  sendLoopGo f retries 0 (retries + 1)

/-- The `for i, (recipient, msg) in enumerate(messages)` loop: every message
is processed in order; retry exhaustion for one recipient only records a
failure and never stops the loop. -/
def runBatch (retries : Nat) : List MsgSpec → List (Str × Outcome × Nat × List Nat)
  | [] => []
  | m :: rest => (m.recipient, sendLoop retries m.failsAt) :: runBatch retries rest

/-- Observable effects of one `send_via_gmail` call. -/
structure RunResult where
  planned : List (Str × Str)
  connected : Bool
  results : List (Str × Outcome × Nat × List Nat)
deriving Repr

/-- `send_via_gmail` (send_recruiters.py, lines 108-139): the dry-run branch
prints the planned (recipient, subject) pairs and returns without opening a
connection; otherwise one SMTP-SSL connection is opened, login happens once
(failure raises `RuntimeError`, modelled as the error case), and the batch
loop runs. -/
def send_via_gmail (dryRun : Bool) (retries : Nat) (authOk : Bool)
    (msgs : List MsgSpec) : Except Unit RunResult :=
  if dryRun then
    Except.ok { planned := msgs.map (fun m => (m.recipient, m.subject)),
                connected := false, results := [] }
  else if authOk then
    Except.ok { planned := [], connected := true, results := runBatch retries msgs }
  else Except.error ()

/-! ## Control flow of v2 `main` around the temporary resume file
(send_recruiters_2.py, lines 126-151 and 316-341) -/

inductive RunError2 where
  | downloadExit
  | promptRaised
  | authError
deriving DecidableEq, Repr

/-- Outcomes of the effectful steps of the run: does the download return status
200, does the password acquisition (env lookup / `getpass` prompt, lines
131-133) complete without raising, does `server.login` succeed, and the
per-recipient send successes (send failures are caught inside the loop). -/
structure MainEnv where
  downloadOk : Bool
  passwordOk : Bool
  loginOk : Bool
  sendOk : List Bool

/-- State tracked by the model: whether `supriya.pdf` currently exists on
disk, and the per-recipient send outcomes reported so far. -/
structure MainState where
  tempFileExists : Bool
  sent : List Bool
deriving DecidableEq, Repr

/-- The `try:` block body (lines 135-148): login, then the send loop, where
each per-recipient exception is caught and reported.  An authentication
failure propagates out of the block. -/
def sendPhase_v2 (env : MainEnv) (s : MainState) : Except RunError2 MainState :=
  if env.loginOk then Except.ok { s with sent := env.sendOk }
  else Except.error RunError2.authError

/-- `finally:` clause (lines 149-151): `if resume_path.exists(): unlink()`. -/
def unlinkTemp (s : MainState) : MainState := { s with tempFileExists := false }

/-- Python `try ... finally` semantics: the final action runs on the result
state on normal exit, and on the state at raise time before the exception
propagates. -/
def tryFinallyM (body : Except RunError2 MainState) (fin : MainState → MainState)
    (s : MainState) : MainState × Option RunError2 :=
  match body with
  | Except.ok s' => (fin s', none)
  | Except.error e => (fin s, some e)

/-- Control flow of v2 `main` from the download on (lines 126-151): the
download writes the temporary file only on success (failure prints and
exits before any file exists); password acquisition runs AFTER the
download and BEFORE the `try`/`finally` block, so an exception there
propagates without running the `finally` clause; everything from `login`
on is inside the block and the `finally` deletes the file. -/
def main_v2 (env : MainEnv) : MainState × Option RunError2 :=
  let s0 : MainState := { tempFileExists := false, sent := [] }
  if env.downloadOk then
    let s1 : MainState := { s0 with tempFileExists := true }
    if env.passwordOk then
      tryFinallyM (sendPhase_v2 env s1) unlinkTemp s1
    else (s1, some RunError2.promptRaised)
  else (s0, some RunError2.downloadExit)

/-! ## Lemmas about deduplication -/

lemma contains_eq_decide_mem (l : List Str) (x : Str) : l.contains x = decide (x ∈ l) := by
  simp [List.contains, List.elem_eq_mem]

lemma dedupGo_cons_mem (seen : List Str) (c : Contact) (rest : List Contact)
    (h : c.email ∈ seen) : dedupGo seen (c :: rest) = dedupGo seen rest := by
  simp [dedupGo, contains_eq_decide_mem, h]

lemma dedupGo_cons_not_mem (seen : List Str) (c : Contact) (rest : List Contact)
    (h : c.email ∉ seen) :
    dedupGo seen (c :: rest) = c :: dedupGo (c.email :: seen) rest := by
  simp [dedupGo, contains_eq_decide_mem, h]

lemma dedupGo_congr (cs : List Contact) :
    ∀ seen₁ seen₂ : List Str, (∀ e, e ∈ seen₁ ↔ e ∈ seen₂) →
      dedupGo seen₁ cs = dedupGo seen₂ cs := by
  induction cs with
  | nil => intro _ _ _; rfl
  | cons c rest ih =>
    intro seen₁ seen₂ h
    by_cases hm : c.email ∈ seen₂
    · rw [dedupGo_cons_mem _ _ _ ((h _).mpr hm), dedupGo_cons_mem _ _ _ hm]
      exact ih _ _ h
    · have hm1 : c.email ∉ seen₁ := fun hx => hm ((h _).mp hx)
      rw [dedupGo_cons_not_mem _ _ _ hm1, dedupGo_cons_not_mem _ _ _ hm]
      have h' : ∀ e, e ∈ c.email :: seen₁ ↔ e ∈ c.email :: seen₂ := by
        intro e; simp [h e]
      rw [ih _ _ h']

lemma dedupGo_cons_filter (cs : List Contact) :
    ∀ (seen : List Str) (e : Str),
      dedupGo (e :: seen) cs = dedupGo seen (cs.filter (fun d => !(d.email == e))) := by
  induction cs with
  | nil => intro _ _; rfl
  | cons c rest ih =>
    intro seen e
    by_cases hce : c.email = e
    · rw [dedupGo_cons_mem _ _ _ (by simp [hce]), ih seen e]
      have : (!(c.email == e)) = false := by simp [hce]
      simp [List.filter_cons, this]
    · have hfil : (!(c.email == e)) = true := by simp [hce]
      simp only [List.filter_cons, hfil, if_true]
      by_cases hm : c.email ∈ seen
      · rw [dedupGo_cons_mem _ _ _ (by simp [hm]), dedupGo_cons_mem _ _ _ hm, ih seen e]
      · have hm2 : c.email ∉ e :: seen := by simp [hce, hm]
        rw [dedupGo_cons_not_mem _ _ _ hm2, dedupGo_cons_not_mem _ _ _ hm]
        have hswap : dedupGo (c.email :: e :: seen) rest
            = dedupGo (e :: c.email :: seen) rest := by
          apply dedupGo_congr
          intro x; constructor <;> (intro hx; simp at hx ⊢; tauto)
        rw [hswap, ih (c.email :: seen) e]

lemma dedup_len_eq_firstOcc : ∀ (n : Nat) (cs : List Contact), cs.length ≤ n →
    dedup cs = firstOcc cs := by
  intro n
  induction n with
  | zero =>
    intro cs hlen
    match cs with
    | [] => simp [dedup, dedupGo, firstOcc]
  | succ n ih =>
    intro cs hlen
    match cs with
    | [] => simp [dedup, dedupGo, firstOcc]
    | c :: rest =>
      have h0 : dedup (c :: rest) = c :: dedupGo [c.email] rest :=
        dedupGo_cons_not_mem [] c rest (by simp)
      rw [h0, dedupGo_cons_filter rest [] c.email]
      have hlen' : (rest.filter (fun d => !(d.email == c.email))).length ≤ n := by
        have := List.length_filter_le (fun d => !(d.email == c.email)) rest
        simp only [List.length_cons, Nat.succ_le_succ_iff] at hlen
        omega
      rw [show dedupGo [] (rest.filter (fun d => !(d.email == c.email)))
            = dedup (rest.filter (fun d => !(d.email == c.email))) from rfl,
        ih _ hlen']
      rw [firstOcc]

lemma dedup_eq_firstOcc (cs : List Contact) : dedup cs = firstOcc cs :=
  dedup_len_eq_firstOcc cs.length cs (Nat.le_refl _)

lemma dedupGo_idem (cs : List Contact) :
    ∀ seen : List Str, dedupGo seen (dedupGo seen cs) = dedupGo seen cs := by
  induction cs with
  | nil => intro _; rfl
  | cons c rest ih =>
    intro seen
    by_cases hm : c.email ∈ seen
    · rw [dedupGo_cons_mem _ _ _ hm, ih seen]
    · rw [dedupGo_cons_not_mem _ _ _ hm, dedupGo_cons_not_mem _ _ _ hm]
      congr 1
      have hsub : dedupGo (c.email :: seen) (dedupGo (c.email :: seen) rest)
          = dedupGo (c.email :: seen) rest := ih (c.email :: seen)
      exact hsub

lemma dedupGo_id_of_nodup (cs : List Contact) :
    ∀ seen : List Str, (∀ c ∈ cs, c.email ∉ seen) →
      (cs.map Contact.email).Nodup → dedupGo seen cs = cs := by
  induction cs with
  | nil => intro _ _ _; rfl
  | cons c rest ih =>
    intro seen hfresh hnd
    rw [dedupGo_cons_not_mem _ _ _ (hfresh c (List.mem_cons_self c rest))]
    congr 1
    simp only [List.map_cons, List.nodup_cons] at hnd
    apply ih
    · intro d hd
      simp only [List.mem_cons]
      push_neg
      constructor
      · intro hEq
        exact hnd.1 (hEq ▸ List.mem_map_of_mem Contact.email hd)
      · exact hfresh d (List.mem_cons_of_mem c hd)
    · exact hnd.2

/-- Claim C5 counterexample: on the example input given by the claim itself the dedup step
of v2d `main` keeps all three contacts (it compares emails verbatim, and
`"X@Y.com"` differs from `"x@y.com"` as a string), so the claimed output
`[("A","x@y.com"),("C","z@y.com")]` and the claimed duplicate count 1 are
both wrong for that input. -/
theorem c5_dedup_counterexample :
    dedup [⟨"A".data, "x@y.com".data⟩, ⟨"B".data, "X@Y.com".data⟩,
           ⟨"C".data, "z@y.com".data⟩]
      = [⟨"A".data, "x@y.com".data⟩, ⟨"B".data, "X@Y.com".data⟩,
         ⟨"C".data, "z@y.com".data⟩]
    ∧ dedup [⟨"A".data, "x@y.com".data⟩, ⟨"B".data, "X@Y.com".data⟩,
             ⟨"C".data, "z@y.com".data⟩]
      ≠ [⟨"A".data, "x@y.com".data⟩, ⟨"C".data, "z@y.com".data⟩]
    ∧ dupCount [⟨"A".data, "x@y.com".data⟩, ⟨"B".data, "X@Y.com".data⟩,
                ⟨"C".data, "z@y.com".data⟩] ≠ 1 := by
  refine ⟨by decide, by decide, by decide⟩

/-- Claim C5 (amended): the dedup step compares emails verbatim — the
lowercase normalization happens in the v2d loader before dedup runs.  It
keeps exactly the first occurrence of each distinct email in first-seen
order (`firstOcc`), reports a discarded count equal to input length minus
output length, and on the loader-normalized form of the example in the claim
(`"X@Y.com"` arrives lowercased as `"x@y.com"`) it returns the two claimed
contacts with one duplicate discarded. -/
theorem c5_dedup_amended (cs : List Contact) :
    dedup cs = firstOcc cs
    ∧ dupCount cs = cs.length - (dedup cs).length
    ∧ dedup [⟨"A".data, "x@y.com".data⟩, ⟨"B".data, "x@y.com".data⟩,
             ⟨"C".data, "z@y.com".data⟩]
        = [⟨"A".data, "x@y.com".data⟩, ⟨"C".data, "z@y.com".data⟩]
    ∧ dupCount [⟨"A".data, "x@y.com".data⟩, ⟨"B".data, "x@y.com".data⟩,
                ⟨"C".data, "z@y.com".data⟩] = 1 := by
  exact ⟨dedup_eq_firstOcc cs, rfl, by decide, by decide⟩

/-- Claim C9: the Deduplicator is idempotent — applying it to its own output
returns that output with zero further duplicates discarded — and on any
input whose lowercase-normalized emails are pairwise distinct it is the
identity. -/
theorem c9_dedup_idempotent (cs : List Contact) :
    dedup (dedup cs) = dedup cs
    ∧ dupCount (dedup cs) = 0
    ∧ ((cs.map (fun c => lowerStr c.email)).Nodup → dedup cs = cs) := by
  refine ⟨dedupGo_idem cs [], ?_, ?_⟩
  · simp only [dupCount, dedup]
    rw [dedupGo_idem cs []]
    exact Nat.sub_self _
  · intro hnd
    apply dedupGo_id_of_nodup
    · intro c _ hc
      simp at hc
    · have : (cs.map (fun c => lowerStr c.email)) = (cs.map Contact.email).map lowerStr := by
        simp [List.map_map, Function.comp]
      rw [this] at hnd
      exact hnd.of_map lowerStr

/-- Witness for C9 at a concrete input with distinct normalized emails. -/
theorem c9_dedup_idempotent_witness :
    dedup [⟨"A".data, "x@y.com".data⟩, ⟨"C".data, "z@y.com".data⟩]
      = [⟨"A".data, "x@y.com".data⟩, ⟨"C".data, "z@y.com".data⟩]
    ∧ dedup (dedup [⟨"A".data, "x@y.com".data⟩, ⟨"C".data, "z@y.com".data⟩])
      = dedup [⟨"A".data, "x@y.com".data⟩, ⟨"C".data, "z@y.com".data⟩] :=
  ⟨(c9_dedup_idempotent _).2.2 (by decide), (c9_dedup_idempotent _).1⟩

/-! ## Message construction: builder contract and the duplicate-attach bug -/

lemma build_message_foldl (atts : List FileRef) :
    ∀ msg : EmailMsg, (atts.foldl attach_file msg).parts
      = msg.parts ++ atts.map (fun a => MimePart.binary a.content [a.name]) := by
  induction atts with
  | nil => intro msg; simp
  | cons a rest ih =>
    intro msg
    simp only [List.foldl_cons, ih, List.map_cons]
    simp [attach_file]

/-- Claim C2: the intended contract holds for v1 `build_message` — the built
message is exactly one text part (the personalized body) followed by one
binary part per attachment, in order, each binary part carrying exactly one
content-disposition header naming the display filename of that attachment.  The
v2 `attach_file`, however, attaches the same binary part twice and gives it
two content-disposition headers, so a v2 message with one attachment has
three parts: the code slip the design notes flag as a defect. -/
theorem c2_single_attachment_part (senderName senderEmail toEmail subject body : Str)
    (atts : List FileRef) (recipient : Str) (f : FileRef) :
    (build_message senderName senderEmail toEmail subject body atts).parts
      = MimePart.text body :: atts.map (fun a => MimePart.binary a.content [a.name])
    ∧ (send_email_msg_v2 senderName senderEmail recipient subject body f).parts
      = [MimePart.text body,
         MimePart.binary f.content [f.name, customName],
         MimePart.binary f.content [f.name, customName]] := by
  constructor
  · rw [build_message, build_message_foldl]
    rfl
  · rfl

/-! ## Dry-run behaviour of the delivery engine -/

/-- Claim C8: with dry-run enabled, `send_via_gmail` opens no transport
connection, performs no sends, retries, or sleeps (its result list is
empty), reports exactly one planned (recipient, subject) pair per message
in list order, and returns immediately with success; in particular the
number of planned sends equals the number of messages (3 for 3 contacts). -/
theorem c8_dry_run (retries : Nat) (authOk : Bool) (msgs : List MsgSpec) :
    send_via_gmail true retries authOk msgs
      = Except.ok { planned := msgs.map (fun m => (m.recipient, m.subject)),
                    connected := false, results := [] }
    ∧ (msgs.map (fun m => (m.recipient, m.subject))).length = msgs.length := by
  exact ⟨rfl, by simp⟩

/-! ## Temporary-file lifetime in v2 `main` -/

/-- Claim C3 counterexample: a run whose download succeeds but whose
password acquisition raises (for instance `getpass` interrupted when the
environment variable is absent) terminates with the temporary resume file
still on disk — the exception is raised after the download yet before the
`try`/`finally` block, so no deletion happens on that exit path. -/
theorem c3_tempfile_counterexample :
    (main_v2 { downloadOk := true, passwordOk := false, loginOk := true,
               sendOk := [] }).1.tempFileExists = true
    ∧ (main_v2 { downloadOk := true, passwordOk := false, loginOk := true,
                 sendOk := [] }).2 = some RunError2.promptRaised := by
  exact ⟨rfl, rfl⟩

/-- Claim C3 (amended): once the run reaches the `try`/`finally` block —
that is, whenever the download succeeds and password acquisition completes
without raising — the temporary file is deleted on every exit path: batch
success, per-recipient send failures, and fatal authentication failure
alike; only an exception during password acquisition (after the download,
before the guarded block) escapes the cleanup. -/
theorem c3_tempfile_cleanup_amended (loginOk : Bool) (sendOk : List Bool) :
    (main_v2 { downloadOk := true, passwordOk := true, loginOk := loginOk,
               sendOk := sendOk }).1.tempFileExists = false := by
  cases loginOk <;> rfl

/-! ## Lemmas about the retry loop -/

lemma sendLoopGo_attempts_le (f : Nat → Bool) (retries : Nat) :
    ∀ (fuel attempt : Nat), (sendLoopGo f retries attempt fuel).2.1 ≤ fuel := by
  intro fuel
  induction fuel with
  | zero => intro attempt; simp [sendLoopGo]
  | succ fuel ih =>
    intro attempt
    by_cases h1 : attempt ≤ retries
    · by_cases h2 : f attempt = true
      · by_cases h3 : retries < attempt + 1
        · simp [sendLoopGo, h1, h2, h3]
        · have hrec := ih (attempt + 1)
          simp only [sendLoopGo]
          simp [h1, h2, h3]
          omega
      · simp [sendLoopGo, h1, h2]
    · simp [sendLoopGo, h1]

lemma sendLoopGo_pos (f : Nat → Bool) (retries : Nat) (fuel attempt : Nat)
    (hfuel : 1 ≤ fuel) (hatt : attempt ≤ retries) :
    1 ≤ (sendLoopGo f retries attempt fuel).2.1 := by
  match fuel, hfuel with
  | fuel + 1, _ =>
    by_cases h2 : f attempt = true
    · by_cases h3 : retries < attempt + 1
      · simp [sendLoopGo, hatt, h2, h3]
      · simp [sendLoopGo, hatt, h2, h3]
    · simp [sendLoopGo, hatt, h2]

lemma sendLoopGo_sleeps (f : Nat → Bool) (retries : Nat) :
    ∀ (fuel attempt : Nat), attempt + fuel = retries + 1 →
      (sendLoopGo f retries attempt fuel).2.2
        = (List.range ((sendLoopGo f retries attempt fuel).2.1 - 1)).map
            (fun i => 2 ^ (attempt + 1 + i)) := by
  intro fuel
  induction fuel with
  | zero => intro attempt _; simp [sendLoopGo]
  | succ fuel ih =>
    intro attempt hsum
    have hatt : attempt ≤ retries := by omega
    by_cases h2 : f attempt = true
    · by_cases h3 : retries < attempt + 1
      · simp [sendLoopGo, hatt, h2, h3]
      · have hsum' : (attempt + 1) + fuel = retries + 1 := by omega
        have hrec := ih (attempt + 1) hsum'
        have hpos : 1 ≤ (sendLoopGo f retries (attempt + 1) fuel).2.1 := by
          apply sendLoopGo_pos <;> omega
        obtain ⟨m, hm⟩ : ∃ m, (sendLoopGo f retries (attempt + 1) fuel).2.1 = m + 1 :=
          ⟨(sendLoopGo f retries (attempt + 1) fuel).2.1 - 1, by omega⟩
        have hfun : (fun i => 2 ^ (attempt + 1 + 1 + i))
            = ((fun i => 2 ^ (attempt + 1 + i)) ∘ fun i => i + 1) := by
          funext i
          simp only [Function.comp_apply]
          rw [show attempt + 1 + 1 + i = attempt + 1 + (i + 1) from by omega]
        simp only [sendLoopGo]
        simp only [hatt, if_true, h2, h3, if_false]
        simp only [hrec, hm]
        rw [show m + 1 + 1 - 1 = m + 1 from by omega,
            show m + 1 - 1 = m from by omega,
            List.range_succ_eq_map, List.map_cons, List.map_map, ← hfun]
    · simp [sendLoopGo, hatt, h2]

lemma sendLoopGo_allfail (f : Nat → Bool) (retries : Nat)
    (hall : ∀ k, k ≤ retries → f k = true) :
    ∀ (fuel attempt : Nat), attempt + fuel = retries + 1 → attempt ≤ retries →
      (sendLoopGo f retries attempt fuel).1 = Outcome.failedAfterRetries
      ∧ (sendLoopGo f retries attempt fuel).2.1 = fuel := by
  intro fuel
  induction fuel with
  | zero => intro attempt hsum hatt; omega
  | succ fuel ih =>
    intro attempt hsum hatt
    by_cases h3 : retries < attempt + 1
    · constructor
      · simp [sendLoopGo, hatt, hall attempt hatt, h3]
      · simp [sendLoopGo, hatt, hall attempt hatt, h3]
        omega
    · have hrec := ih (attempt + 1) (by omega) (by omega)
      have h1 := hrec.1
      have h2 := hrec.2
      constructor
      · simp [sendLoopGo, hatt, hall attempt hatt, h3]
        exact h1
      · simp [sendLoopGo, hatt, hall attempt hatt, h3]
        omega

lemma runBatch_eq_map (retries : Nat) (msgs : List MsgSpec) :
    runBatch retries msgs = msgs.map (fun m => (m.recipient, sendLoop retries m.failsAt)) := by
  induction msgs with
  | nil => rfl
  | cons m rest ih => simp [runBatch, ih]

/-- Claim C1: for every retry bound, transport behaviour and batch, the
engine makes at most `retries + 1` send attempts per recipient (at most
`retries` additional attempts after the first); the backoff sleeps are
exactly `2 ^ attempt` seconds before retry number `attempt`, counting from
1; if every attempt up to the bound raises, the outcome for that recipient is
`failedAfterRetries` after exactly `retries + 1` attempts; and the batch
processes every recipient in order regardless of earlier outcomes. -/
theorem c1_bounded_retry_backoff (retries : Nat) (f : Nat → Bool)
    (msgs : List MsgSpec) :
    (sendLoop retries f).2.1 ≤ retries + 1
    ∧ (sendLoop retries f).2.2
        = (List.range ((sendLoop retries f).2.1 - 1)).map (fun i => 2 ^ (i + 1))
    ∧ ((∀ k, k ≤ retries → f k = true) →
        (sendLoop retries f).1 = Outcome.failedAfterRetries
        ∧ (sendLoop retries f).2.1 = retries + 1)
    ∧ runBatch retries msgs
        = msgs.map (fun m => (m.recipient, sendLoop retries m.failsAt))
    ∧ send_via_gmail false retries true msgs
        = Except.ok { planned := [], connected := true,
                      results := runBatch retries msgs } := by
  refine ⟨sendLoopGo_attempts_le f retries (retries + 1) 0, ?_, ?_,
    runBatch_eq_map retries msgs, rfl⟩
  · have := sendLoopGo_sleeps f retries (retries + 1) 0 (by omega)
    rw [sendLoop, this]
    apply List.map_congr_left
    intro i _
    rw [show 0 + 1 + i = i + 1 from by omega]
  · intro hall
    exact sendLoopGo_allfail f retries hall (retries + 1) 0 (by omega) (by omega)

/-- Witness for C1: with the default bound 2 and a transport that always
raises, the recipient fails after exactly 3 attempts with backoff sleeps
of 2 and 4 seconds, and both recipients of a 2-message batch are
processed. -/
theorem c1_bounded_retry_backoff_witness :
    (sendLoop 2 (fun _ => true)).1 = Outcome.failedAfterRetries
    ∧ (sendLoop 2 (fun _ => true)).2.1 = 2 + 1
    ∧ (sendLoop 2 (fun _ => true)).2.1 ≤ 2 + 1
    ∧ runBatch 2 ([⟨"a@x.com".data, "s".data, fun _ => true⟩,
                   ⟨"b@x.com".data, "s".data, fun _ => false⟩] : List MsgSpec)
        = ([⟨"a@x.com".data, "s".data, fun _ => true⟩,
            ⟨"b@x.com".data, "s".data, fun _ => false⟩] : List MsgSpec).map
            (fun m => (m.recipient, sendLoop 2 m.failsAt)) := by
  have h := c1_bounded_retry_backoff 2 (fun _ => true)
    ([⟨"a@x.com".data, "s".data, fun _ => true⟩,
      ⟨"b@x.com".data, "s".data, fun _ => false⟩] : List MsgSpec)
  have hfail := h.2.2.1 (fun k _ => rfl)
  exact ⟨hfail.1, hfail.2, h.1, h.2.2.2.1⟩

/-! ## Lemmas about the loaders -/

lemma headerCell_v1_eq_claim (r : List Str) : headerCell_v1 r = claimHeaderRow r := by
  rw [Bool.eq_iff_iff]
  simp only [headerCell_v1, claimHeaderRow, contains_eq_decide_mem, List.any_eq_true,
    Bool.or_eq_true, decide_eq_true_eq, List.mem_map, beq_iff_eq]
  constructor
  · rintro (⟨c, hc, he⟩ | ⟨c, hc, he⟩)
    · exact ⟨c, hc, Or.inr he⟩
    · exact ⟨c, hc, Or.inl he⟩
  · rintro ⟨c, hc, he | he⟩
    · exact Or.inr ⟨c, hc, he⟩
    · exact Or.inl ⟨c, hc, he⟩

lemma loadRows_v1_all_valid (rest : List (List Str)) :
    (∀ r ∈ rest, claimValidRow r = true) →
      loadRows_v1 rest = rest.map contactOfRow := by
  induction rest with
  | nil => intro _; rfl
  | cons r rs ih =>
    intro h
    have hr := h r (List.mem_cons_self _ _)
    match r, hr with
    | a :: b :: t, hr =>
      have hb : ¬(strip b = []) := by
        simp only [claimValidRow, Bool.not_eq_true'] at hr
        intro hx
        rw [hx] at hr
        simp at hr
      simp only [loadRows_v1, List.map_cons]
      rw [if_neg hb]
      rw [ih (fun x hx => h x (List.mem_cons_of_mem _ hx))]
      rfl

/-- Claim C4 counterexample: for the v2 loader, a first row whose first cell
is exactly "name" is not treated as a header (only "email" is checked), and
a later row with an empty second cell is not skipped, so on
`[["name","a@b.c"],["bob",""]]` the claim predicts an empty result but the
loader returns both rows as contacts. -/
theorem c4_loader_counterexample :
    claimHeaderRow ["name".data, "a@b.c".data] = true
    ∧ claimValidRow ["bob".data, "".data] = false
    ∧ load_recruiters_v2 [["name".data, "a@b.c".data], ["bob".data, "".data]]
        = [⟨"name".data, "a@b.c".data⟩, ⟨"bob".data, "".data⟩] := by
  refine ⟨by decide, by decide, by decide⟩

lemma loadRows_v1_filter (rows : List (List Str)) :
    loadRows_v1 rows = (rows.filter claimValidRow).map contactOfRow := by
  induction rows with
  | nil => rfl
  | cons r rs ih =>
    match r with
    | [] => simpa [loadRows_v1, claimValidRow, List.filter_cons] using ih
    | [a] => simpa [loadRows_v1, claimValidRow, List.filter_cons] using ih
    | a :: b :: t =>
      by_cases hb : strip b = []
      · have hcv : claimValidRow (a :: b :: t) = false := by
          simp [claimValidRow, hb]
        simp [loadRows_v1, List.filter_cons, hcv, hb, ih]
      · have hcv : claimValidRow (a :: b :: t) = true := by
          simp [claimValidRow, List.isEmpty_iff, hb]
        simp [loadRows_v1, List.filter_cons, hcv, hb, ih, contactOfRow]

lemma headerCheck_v2_eq_claim (r : List Str) : headerCheck_v2 r = claimHeaderRow_v2 r := by
  rw [Bool.eq_iff_iff]
  simp only [headerCheck_v2, claimHeaderRow_v2, contains_eq_decide_mem, List.any_eq_true,
    decide_eq_true_eq, List.mem_map, beq_iff_eq]

lemma loadRows_v2_filter (rows : List (List Str)) :
    loadRows_v2 rows = (rows.filter hasTwoCells).map contactOfRow_v2 := by
  induction rows with
  | nil => rfl
  | cons r rs ih =>
    match r with
    | [] => simpa [loadRows_v2, hasTwoCells, List.filter_cons] using ih
    | [a] => simpa [loadRows_v2, hasTwoCells, List.filter_cons] using ih
    | a :: b :: t =>
      simp [loadRows_v2, hasTwoCells, List.filter_cons, contactOfRow_v2, ih]

/-- Claim C4 (amended): the claim holds in full for the send_recruiters.py
loader — on every non-empty file the first row is discarded exactly when
the header test of the claim holds; on every row list, rows with fewer than
two cells or an empty trimmed second cell are skipped and each valid row
becomes one contact in file order; hence a header row followed by valid
rows yields exactly one contact per row.  The send_recruiters_2.py loader,
however, discards the first row exactly when some cell lowercased
(untrimmed) equals "email" (never "name"), and keeps every row with two
cells, empty second cell included. -/
theorem c4_loader_amended (first : List Str) (rest rows : List (List Str)) :
    load_recruiters (first :: rest)
        = loadRows_v1 (if claimHeaderRow first then rest else first :: rest)
    ∧ loadRows_v1 rows = (rows.filter claimValidRow).map contactOfRow
    ∧ (claimHeaderRow first = true → (∀ r ∈ rest, claimValidRow r = true) →
        load_recruiters (first :: rest) = rest.map contactOfRow
        ∧ (load_recruiters (first :: rest)).length = rest.length)
    ∧ load_recruiters_v2 (first :: rest)
        = loadRows_v2 (if claimHeaderRow_v2 first then rest else first :: rest)
    ∧ loadRows_v2 rows = (rows.filter hasTwoCells).map contactOfRow_v2 := by
  have hv1 : load_recruiters (first :: rest)
      = loadRows_v1 (if claimHeaderRow first then rest else first :: rest) := by
    simp only [load_recruiters, headerCell_v1_eq_claim]
  refine ⟨hv1, loadRows_v1_filter rows, ?_, ?_, loadRows_v2_filter rows⟩
  · intro h1 h2
    have hmain : load_recruiters (first :: rest) = rest.map contactOfRow := by
      rw [hv1, if_pos h1]
      exact loadRows_v1_all_valid rest h2
    exact ⟨hmain, by rw [hmain]; simp⟩
  · simp only [load_recruiters_v2, headerCheck_v2_eq_claim]

/-- Witness for C4 at a concrete header plus two valid rows. -/
theorem c4_loader_amended_witness :
    claimHeaderRow ["Name".data, "Email".data] = true
    ∧ load_recruiters [["Name".data, "Email".data],
        ["Alice".data, "alice@x.com".data], ["".data, "jane.doe@x.com".data]]
      = [["Alice".data, "alice@x.com".data],
         ["".data, "jane.doe@x.com".data]].map contactOfRow :=
  ⟨by decide,
   ((c4_loader_amended ["Name".data, "Email".data]
      [["Alice".data, "alice@x.com".data], ["".data, "jane.doe@x.com".data]]
      []).2.2.1 (by decide) (by decide)).1⟩

/-! ## Lemmas about the fallback display name -/

lemma takeUntil_single (c : Char) (s : Str) :
    takeUntilSub [c] s = s.takeWhile (fun x => !(x == c)) := by
  induction s with
  | nil => rfl
  | cons x r ih =>
    by_cases h : x = c
    · subst h
      simp [takeUntilSub, beginsWith, List.takeWhile_cons]
    · have g1 : (c == x) = false := beq_eq_false_iff_ne.mpr (Ne.symm h)
      have g2 : (x == c) = false := beq_eq_false_iff_ne.mpr h
      simp [takeUntilSub, beginsWith, List.takeWhile_cons, g1, g2, ih]

lemma replace_dot_under (s : Str) :
    replaceChar '_' ' ' (replaceChar '.' ' ' s)
      = s.map (fun c => if c == '.' || c == '_' then ' ' else c) := by
  simp only [replaceChar, List.map_map]
  apply List.map_congr_left
  intro c _
  by_cases h1 : c = '.'
  · subst h1; decide
  · by_cases h2 : c = '_'
    · subst h2; decide
    · have g1 : (c == '.') = false := beq_eq_false_iff_ne.mpr h1
      have g2 : (c == '_') = false := beq_eq_false_iff_ne.mpr h2
      simp [Function.comp, g1, g2]

/-- Claim C7 counterexample: the send_recruiters_2.py loader, on a row with
an empty name and email `jane.doe@x.com`, derives the display name `Jane`
(it capitalizes only the first dot-token of the local part), not the claimed
`Jane Doe`. -/
theorem c7_fallback_counterexample :
    load_recruiters_v2 [["".data, "jane.doe@x.com".data]]
      = [⟨"Jane".data, "jane.doe@x.com".data⟩]
    ∧ "Jane".data ≠ "Jane Doe".data := by
  exact ⟨by decide, by decide⟩

/-- Claim C7 (amended): the claimed derivation — local part of the email,
`.` and `_` replaced by spaces, title-cased — is exactly what the
send_recruiters.py loader computes (so `jane.doe@x.com` yields `Jane Doe`
there); the send_recruiters_2.py loaders instead capitalize only the
first dot-separated token of the local part, yielding `Jane`. -/
theorem c7_fallback_amended (e : Str) :
    fallbackName_v1 e
        = pyTitle ((e.takeWhile (fun c => !(c == '@'))).map
            (fun c => if c == '.' || c == '_' then ' ' else c))
    ∧ fallbackName_v2 e
        = pyCapitalize ((e.takeWhile (fun c => !(c == '@'))).takeWhile
            (fun c => !(c == '.')))
    ∧ load_recruiters [["".data, "jane.doe@x.com".data]]
        = [⟨"Jane Doe".data, "jane.doe@x.com".data⟩]
    ∧ load_recruiters_v2 [["".data, "jane.doe@x.com".data]]
        = [⟨"Jane".data, "jane.doe@x.com".data⟩] := by
  refine ⟨?_, ?_, by decide, by decide⟩
  · rw [fallbackName_v1, replace_dot_under,
      show "@".data = ['@'] from rfl, takeUntil_single]
  · rw [fallbackName_v2,
      show "@".data = ['@'] from rfl, show ".".data = ['.'] from rfl,
      takeUntil_single, takeUntil_single]

/-! ## Lemmas about split-based identifier extraction -/

lemma splitGo_zero (sep : Str) :
    ∀ (fuel : Nat) (s : Str), s.length < fuel →
      (splitGo sep fuel s).get? 0 = some (takeUntilSub sep s) := by
  intro fuel
  induction fuel with
  | zero => intro s hs; omega
  | succ fuel ih =>
    intro s hs
    match s with
    | [] => rfl
    | c :: rest =>
      by_cases hb : beginsWith sep (c :: rest) = true
      · simp [splitGo, takeUntilSub, hb]
      · have hrest : rest.length < fuel := by
          simp only [List.length_cons] at hs; omega
        have hih := ih rest hrest
        simp only [splitGo, takeUntilSub, hb, if_false]
        cases hsp : splitGo sep fuel rest with
        | nil => rw [hsp] at hih; simp at hih
        | cons h t =>
          rw [hsp] at hih
          simp only [List.get?_cons_zero, Option.some_inj] at hih
          simp [hih, Bool.false_eq_true]

lemma splitGo_one (sep : Str) (hsep : sep ≠ []) :
    ∀ (fuel : Nat) (s : Str), s.length < fuel → containsSub sep s = true →
      (splitGo sep fuel s).get? 1
        = some (takeUntilSub sep (afterFirstSub sep s)) := by
  intro fuel
  induction fuel with
  | zero => intro s hs _; omega
  | succ fuel ih =>
    intro s hs hc
    match s with
    | [] =>
      simp only [containsSub, List.isEmpty_iff] at hc
      exact absurd hc hsep
    | c :: rest =>
      by_cases hb : beginsWith sep (c :: rest) = true
      · have hlen : (List.drop sep.length (c :: rest)).length < fuel := by
          have hsl : 1 ≤ sep.length := by
            cases sep with
            | nil => exact absurd rfl hsep
            | cons _ _ => simp
          simp only [List.length_drop, List.length_cons] at *
          omega
        simp only [splitGo, afterFirstSub, hb, if_true, List.get?_cons_succ]
        exact splitGo_zero sep fuel (List.drop sep.length (c :: rest)) hlen
      · have hc' : containsSub sep rest = true := by
          simp only [containsSub, Bool.or_eq_true] at hc
          rcases hc with h | h
          · exact absurd h hb
          · exact h
        have hrest : rest.length < fuel := by
          simp only [List.length_cons] at hs; omega
        have hih := ih rest hrest hc'
        simp only [splitGo, afterFirstSub, hb, if_false]
        cases hsp : splitGo sep fuel rest with
        | nil => rw [hsp] at hih; simp at hih
        | cons h t =>
          rw [hsp] at hih
          rw [List.get?_cons_succ] at hih
          simp only [hsp, Bool.false_eq_true, if_false]
          rw [List.get?_cons_succ]
          exact hih

lemma splitOnSub_zero (sep s : Str) :
    (splitOnSub sep s).get? 0 = some (takeUntilSub sep s) :=
  splitGo_zero sep (s.length + 1) s (Nat.lt_succ_self _)

lemma splitOnSub_one (sep s : Str) (hsep : sep ≠ []) (hc : containsSub sep s = true) :
    (splitOnSub sep s).get? 1 = some (takeUntilSub sep (afterFirstSub sep s)) :=
  splitGo_one sep hsep (s.length + 1) s (Nat.lt_succ_self _) hc

lemma takeUntil_single_of_head (c : Char) (ss : Str) (t : Str) :
    takeUntilSub [c] (takeUntilSub (c :: ss) t) = takeUntilSub [c] t := by
  induction t with
  | nil => rfl
  | cons x r ih =>
    by_cases hx : x = c
    · subst hx
      have hb1 : beginsWith [x] (x :: r) = true := by simp [beginsWith]
      by_cases hb : beginsWith (x :: ss) (x :: r) = true
      · simp [takeUntilSub, hb, hb1]
      · have hb4 : beginsWith [x] (x :: takeUntilSub (x :: ss) r) = true := by
          simp [beginsWith]
        simp only [takeUntilSub, hb, Bool.false_eq_true, if_false]
        simp [takeUntilSub, hb4, hb1]
    · have g1 : (c == x) = false := beq_eq_false_iff_ne.mpr (Ne.symm hx)
      have hb2 : beginsWith (c :: ss) (x :: r) = false := by
        simp [beginsWith, g1]
      have hb3 : beginsWith [c] (x :: r) = false := by
        simp [beginsWith, g1]
      have hb5 : beginsWith [c] (x :: takeUntilSub (c :: ss) r) = false := by
        simp [beginsWith, g1]
      simp only [takeUntilSub, hb2, hb3, hb5, Bool.false_eq_true, if_false]
      rw [ih]

lemma takeUntil_slash_dSlash (t : Str) :
    takeUntilSub "/".data (takeUntilSub "/d/".data t) = takeUntilSub "/".data t :=
  takeUntil_single_of_head '/' ['d', '/'] t

lemma extract_file_id_eq (link : Str) :
    extract_file_id link =
      if containsSub "id=".data link then
        Except.ok (takeUntilSub "&".data
          (takeUntilSub "id=".data (afterFirstSub "id=".data link)))
      else if containsSub "/d/".data link then
        Except.ok (takeUntilSub "/".data
          (takeUntilSub "/d/".data (afterFirstSub "/d/".data link)))
      else Except.error DriveError.invalidLinkFormat := by
  by_cases h1 : containsSub "id=".data link = true
  · simp only [extract_file_id, h1, if_true]
    rw [splitOnSub_one "id=".data link (by decide) h1]
    simp only [Option.getD_some]
    rw [splitOnSub_zero]
    simp
  · by_cases h2 : containsSub "/d/".data link = true
    · simp only [extract_file_id, h1, h2, Bool.false_eq_true, if_false, if_true]
      rw [splitOnSub_one "/d/".data link (by decide) h2]
      simp only [Option.getD_some]
      rw [splitOnSub_zero]
      simp
    · simp [extract_file_id, h1, h2]

/-- Claim C6 counterexample: on the link `x?id=abid=cd` the claim predicts
the identifier `abid=cd` (the text after the first `id=` up to the next
`&`, of which there is none), but `split("id=")[1]` also cuts at the second
occurrence of `id=`, so the code extracts `ab`. -/
theorem c6_link_counterexample :
    extract_file_id "x?id=abid=cd".data = Except.ok "ab".data
    ∧ takeUntilSub "&".data (afterFirstSub "id=".data "x?id=abid=cd".data)
        = "abid=cd".data
    ∧ "ab".data ≠ "abid=cd".data := by
  refine ⟨by rfl, by decide, by decide⟩

/-- Claim C6 (amended): for every link containing `id=`, the identifier is
the text after the first `id=` truncated at the next occurrence of `id=`
and then at the next `&`; otherwise, for a link containing `/d/`, it is the
text after the first `/d/` up to the next `/` (exactly as claimed, so
`/d/ABC123/view` yields `ABC123`); and extraction fails with
`InvalidLinkFormat` exactly when the link contains neither marker. -/
theorem c6_link_amended (link : Str) :
    extract_file_id link =
      (if containsSub "id=".data link then
        Except.ok (takeUntilSub "&".data
          (takeUntilSub "id=".data (afterFirstSub "id=".data link)))
      else if containsSub "/d/".data link then
        Except.ok (takeUntilSub "/".data (afterFirstSub "/d/".data link))
      else Except.error DriveError.invalidLinkFormat)
    ∧ extract_file_id "https://x/d/ABC123/view".data = Except.ok "ABC123".data := by
  constructor
  · rw [extract_file_id_eq, takeUntil_slash_dSlash]
  · rfl

/-- Claim C10 counterexample: the link `https://x/d/ZZZ/view?id=abid=cd`
contains both `id=` and `/d/`; the parenthetical of the claim predicts the
identifier `abid=cd` (text after the first `id=` up to the next `&`), but
the code extracts `ab`, truncating at the second `id=`. -/
theorem c10_precedence_counterexample :
    extract_file_id "https://x/d/ZZZ/view?id=abid=cd".data = Except.ok "ab".data
    ∧ "ab".data ≠ takeUntilSub "&".data (afterFirstSub "id=".data
        "https://x/d/ZZZ/view?id=abid=cd".data) := by
  refine ⟨by rfl, by decide⟩

/-- Claim C10 (amended): for every link containing both `id=` and `/d/`,
the identifier comes from the `id=` form — the text after the first `id=`,
truncated at the next `id=` and then at the next `&` — and never from the
`/d/` form: the `id=` shape takes precedence. -/
theorem c10_precedence_amended (link : Str)
    (h1 : containsSub "id=".data link = true)
    (h2 : containsSub "/d/".data link = true) :
    extract_file_id link
      = Except.ok (takeUntilSub "&".data
          (takeUntilSub "id=".data (afterFirstSub "id=".data link))) := by
  have _hboth := h2
  rw [extract_file_id_eq]
  simp [h1]

/-- Witness for C10 at a link containing both `id=` and `/d/`. -/
theorem c10_precedence_amended_witness :
    containsSub "id=".data "https://x/d/ZZZ/view?id=AAA&x".data = true
    ∧ containsSub "/d/".data "https://x/d/ZZZ/view?id=AAA&x".data = true
    ∧ extract_file_id "https://x/d/ZZZ/view?id=AAA&x".data
        = Except.ok (takeUntilSub "&".data (takeUntilSub "id=".data
            (afterFirstSub "id=".data "https://x/d/ZZZ/view?id=AAA&x".data))) :=
  ⟨by decide, by decide,
   c10_precedence_amended "https://x/d/ZZZ/view?id=AAA&x".data
     (by decide) (by decide)⟩
